import Mathlib

/-!
Shallow embedding of the CAN CRC computation core (`src/lib.rs` of the
modbus-can-crc repository) and proofs of its specification claims.

Rust `u16` registers stay below `2 ^ 15` throughout the computation (every
update masks with `0x7FFF`), so they are embedded as `Nat` with the masks
written exactly as in the source; `Vec<bool>` becomes `List Bool`, `&str`
becomes `List Char`, and `Result<T, String>` becomes `Except String T`.
-/

set_option maxRecDepth 40000

/-- CAN CRC polynomial: 0x4599 (`CAN_POLY` in the source). -/
def CAN_POLY : Nat := 0x4599

/-- One iteration of the bit-serial loop body of `calculate_can_crc`:
`crcnxt = nxtbit ^ ((crc_rg >> 14) & 1 == 1)`, then
`crc_rg = (crc_rg << 1) & 0x7FFF`, then `if crcnxt { crc_rg ^= CAN_POLY }`. -/
def crcStep (crc_rg : Nat) (nxtbit : Bool) : Nat :=
  let crcnxt := Bool.xor nxtbit (((crc_rg >>> 14) &&& 1) == 1)
  let shifted := (crc_rg <<< 1) &&& 0x7FFF
  if crcnxt then shifted ^^^ CAN_POLY else shifted

/-- Embedding of `calculate_can_crc` (src/lib.rs lines 132–149): fold the bit-serial step
over the bit sequence starting from register 0. -/
def calculate_can_crc (bits : List Bool) : Nat :=
  List.foldl crcStep 0 bits

/-- One iteration of the inner `while j < 8` loop of `generate_crc_table`:
`if (crc & 0x4000) != 0 { crc = ((crc << 1) ^ CAN_POLY) & 0x7FFF }
else { crc = (crc << 1) & 0x7FFF }`. -/
def tableStep (crc : Nat) : Nat :=
  if (crc &&& 0x4000) != 0 then ((crc <<< 1) ^^^ CAN_POLY) &&& 0x7FFF
  else (crc <<< 1) &&& 0x7FFF

/-- Embedding of `generate_crc_table` (src/lib.rs lines 187–209), as a function from the
index: entry `i` starts from `(i as u16) << 7` and applies the inner loop
body 8 times. -/
def generate_crc_table (i : Nat) : Nat :=
  tableStep^[8] (i <<< 7)

/-- The byte assembled by the inner `for j in 0..8` loop of
`calculate_can_crc_optimized`: `byte |= 1 << (7 - j)` for each set bit. -/
def bitsToByte8 (b0 b1 b2 b3 b4 b5 b6 b7 : Bool) : Nat :=
  (if b0 then 1 <<< 7 else 0) ||| (if b1 then 1 <<< 6 else 0) |||
  (if b2 then 1 <<< 5 else 0) ||| (if b3 then 1 <<< 4 else 0) |||
  (if b4 then 1 <<< 3 else 0) ||| (if b5 then 1 <<< 2 else 0) |||
  (if b6 then 1 <<< 1 else 0) ||| (if b7 then 1 <<< 0 else 0)

/-- The table-lookup register update for one full byte in
`calculate_can_crc_optimized`:
`tbl_idx = ((crc_rg >> 7) ^ byte as u16) as u8` (the cast is the `&&& 0xFF`),
`crc_rg = ((crc_rg << 8) ^ CRC_TABLE[tbl_idx]) & 0x7FFF`. -/
def byteUpdate (crc_rg byte : Nat) : Nat :=
  let tbl_idx := ((crc_rg >>> 7) ^^^ byte) &&& 0xFF
  ((crc_rg <<< 8) ^^^ generate_crc_table tbl_idx) &&& 0x7FFF

/-- The loop structure of `calculate_can_crc_optimized`: the source first
processes `bits.len() / 8` complete bytes (bits `i*8 .. i*8+8` of the input,
MSB first) through the table, then the remaining `bits.len() % 8` bits with
the bit-serial step.  Taking 8 bits at a time from the front of the list is
the same partition. -/
def crcOptGo (crc_rg : Nat) : List Bool → Nat
  | b0 :: b1 :: b2 :: b3 :: b4 :: b5 :: b6 :: b7 :: rest =>
    crcOptGo (byteUpdate crc_rg (bitsToByte8 b0 b1 b2 b3 b4 b5 b6 b7)) rest
  | rest => List.foldl crcStep crc_rg rest

/-- Embedding of `calculate_can_crc_optimized` (src/lib.rs lines 152–184). -/
def calculate_can_crc_optimized (bits : List Bool) : Nat :=
  crcOptGo 0 bits

/-- The bits pushed for one byte by `bytes_to_bits`
(`for i in (0..8).rev() { bits.push((byte >> i) & 1 == 1) }`). -/
def byteBitsCode (byte : Nat) : List Bool :=
  (List.range 8).map (fun j => ((byte >>> (7 - j)) &&& 1) == 1)

/-- Embedding of `bytes_to_bits` (src/lib.rs lines 121–129): MSB-first expansion of each
byte, concatenated in input order. -/
def bytes_to_bits (bytes : List Nat) : List Bool :=
  (bytes.map byteBitsCode).flatten

example : calculate_can_crc [false] = 0 := by decide
example : calculate_can_crc_optimized (bytes_to_bits [0xAA, 0xBB, 0xCC]) =
    calculate_can_crc (bytes_to_bits [0xAA, 0xBB, 0xCC]) := by decide

/-! ### Helper lemmas: XOR algebra on `Nat` -/

theorem shiftLeft_xor_distrib (a b n : Nat) : (a ^^^ b) <<< n = (a <<< n) ^^^ (b <<< n) := by
  apply Nat.eq_of_testBit_eq
  intro i
  simp [Nat.testBit_shiftLeft, Nat.testBit_xor]
  cases Decidable.em (n ≤ i) with
  | inl h => simp [h]
  | inr h => simp [h]

theorem shiftRight_xor_distrib (a b n : Nat) : (a ^^^ b) >>> n = (a >>> n) ^^^ (b >>> n) := by
  apply Nat.eq_of_testBit_eq
  intro i
  simp [Nat.testBit_shiftRight, Nat.testBit_xor]

theorem xor_mix (A B C D : Nat) : (A ^^^ C) ^^^ (B ^^^ D) = (A ^^^ B) ^^^ (C ^^^ D) := by
  apply Nat.eq_of_testBit_eq
  intro i
  simp only [Nat.testBit_xor]
  cases A.testBit i <;> cases B.testBit i <;> cases C.testBit i <;> cases D.testBit i <;> rfl

theorem ite_xor_ite (P : Nat) (a b : Bool) :
    (if a then P else 0) ^^^ (if b then P else 0) = if Bool.xor a b then P else 0 := by
  cases a <;> cases b <;> simp

/-- The top-bit test in `crcStep` is `Nat.testBit _ 14`. -/
theorem bitFlag_eq_testBit (x : Nat) : (((x >>> 14) &&& 1) == 1) = x.testBit 14 := by
  rw [Nat.testBit_to_div_mod, Nat.and_one_is_mod, Nat.shiftRight_eq_div_pow]
  rcases Nat.mod_two_eq_zero_or_one (x / 2 ^ 14) with h | h <;> norm_num at h ⊢ <;>
    rw [h] <;> decide

/-- Rewriting of `crcStep` as an unconditional XOR. -/
theorem crcStep_eq (r : Nat) (n : Bool) :
    crcStep r n = ((r <<< 1) &&& 0x7FFF) ^^^ (if Bool.xor n (r.testBit 14) then CAN_POLY else 0) := by
  unfold crcStep
  rw [bitFlag_eq_testBit]
  cases Bool.xor n (r.testBit 14) <;> simp

/-- The bit-serial step is linear over GF(2) in (register, input bit). -/
theorem crcStep_linear (r s : Nat) (a b : Bool) :
    crcStep (r ^^^ s) (Bool.xor a b) = crcStep r a ^^^ crcStep s b := by
  rw [crcStep_eq, crcStep_eq, crcStep_eq, xor_mix, ite_xor_ite, Nat.testBit_xor,
    shiftLeft_xor_distrib, Nat.and_xor_distrib_right]
  cases a <;> cases b <;> cases r.testBit 14 <;> cases s.testBit 14 <;> rfl

/-- Folding the bit-serial step is linear over GF(2). -/
theorem foldl_crcStep_linear : ∀ (as bs : List Bool) (r s : Nat), as.length = bs.length →
    List.foldl crcStep (r ^^^ s) (List.zipWith Bool.xor as bs) =
      List.foldl crcStep r as ^^^ List.foldl crcStep s bs
  | [], [], r, s, _ => rfl
  | a :: as, b :: bs, r, s, h => by
    have ih := foldl_crcStep_linear as bs (crcStep r a) (crcStep s b) (by simpa using h)
    simp only [List.zipWith, List.foldl]
    rw [crcStep_linear r s a b]
    exact ih

theorem zipWith_xor_replicate_false : ∀ (l : List Bool),
    List.zipWith Bool.xor (List.replicate l.length false) l = l
  | [] => rfl
  | b :: l => by simp [List.replicate, List.zipWith, zipWith_xor_replicate_false l]

/-! ### Helper lemmas: concrete 8-step facts, by exhaustive evaluation -/

/-- Feeding 8 zero bits to a register holding `h <<< 7` (`h` a byte) lands on
the table entry for `h`. -/
theorem table_entry_feed : ∀ h < 256,
    List.foldl crcStep (h <<< 7) (List.replicate 8 false) = generate_crc_table h := by decide

/-- Feeding 8 zero bits to a register below `2 ^ 7` just shifts it up. -/
theorem low_feed : ∀ l < 128, List.foldl crcStep l (List.replicate 8 false) = l <<< 8 := by decide

/-- Feeding the bits of byte `B` to a register holding `B <<< 7` cancels to 0. -/
theorem self_feed : ∀ B < 256, List.foldl crcStep (B <<< 7) (byteBitsCode B) = 0 := by decide

theorem table_lt : ∀ h < 256, generate_crc_table h < 2 ^ 15 := by decide

theorem byteBitsCode_bitsToByte8 : ∀ b0 b1 b2 b3 b4 b5 b6 b7 : Bool,
    byteBitsCode (bitsToByte8 b0 b1 b2 b3 b4 b5 b6 b7) = [b0, b1, b2, b3, b4, b5, b6, b7] := by
  decide

theorem bitsToByte8_lt : ∀ b0 b1 b2 b3 b4 b5 b6 b7 : Bool,
    bitsToByte8 b0 b1 b2 b3 b4 b5 b6 b7 < 256 := by decide

/-! ### The byte-step lemma -/

theorem hi_lo_decomp (x : Nat) : ((x >>> 7) <<< 7) ^^^ (x &&& 127) = x := by
  apply Nat.eq_of_testBit_eq
  intro i
  simp only [Nat.testBit_xor, Nat.testBit_shiftLeft, Nat.testBit_shiftRight, Nat.testBit_land]
  have h127 : (127 : Nat) = 2 ^ 7 - 1 := by norm_num
  rw [h127, Nat.testBit_two_pow_sub_one]
  cases Decidable.em (7 ≤ i) with
  | inl h =>
    have : ¬ i < 7 := by omega
    simp [h, this, Nat.add_sub_cancel' h]
  | inr h =>
    have : i < 7 := by omega
    simp [h, this]

theorem shl8_mask (r : Nat) : (r <<< 8) &&& 0x7FFF = (r &&& 127) <<< 8 := by
  have h7 : (127 : Nat) = 2 ^ 7 - 1 := by norm_num
  have h15 : (0x7FFF : Nat) = 2 ^ 15 - 1 := by norm_num
  rw [h7, h15, Nat.and_pow_two_sub_one_eq_mod, Nat.and_pow_two_sub_one_eq_mod,
    Nat.shiftLeft_eq, Nat.shiftLeft_eq]
  have : (2 : Nat) ^ 15 = 128 * 256 := by norm_num
  rw [this]
  have h28 : (2 : Nat) ^ 8 = 256 := by norm_num
  have h27 : (2 : Nat) ^ 7 = 128 := by norm_num
  rw [h28, h27, Nat.mul_mod_mul_right]

theorem byteUpdate_lt (r B : Nat) : byteUpdate r B < 2 ^ 15 := by
  have h := Nat.and_le_right (n := (r <<< 8) ^^^ generate_crc_table (((r >>> 7) ^^^ B) &&& 0xFF))
    (m := 0x7FFF)
  show ((r <<< 8) ^^^ generate_crc_table (((r >>> 7) ^^^ B) &&& 0xFF)) &&& 0x7FFF < 2 ^ 15
  omega

theorem crcStep_lt (r : Nat) (n : Bool) : crcStep r n < 2 ^ 15 := by
  rw [crcStep_eq]
  have h := Nat.and_le_right (n := r <<< 1) (m := 0x7FFF)
  cases Bool.xor n (r.testBit 14)
  · simp only [Bool.false_eq_true, if_false, Nat.xor_zero]
    omega
  · simp only [if_true]
    exact Nat.xor_lt_two_pow (by omega) (by norm_num [CAN_POLY])

/-- The table-lookup update for a full byte agrees with eight bit-serial steps. -/
theorem byteUpdate_eq_foldl (r B : Nat) (hr : r < 2 ^ 15) (hB : B < 2 ^ 8) :
    byteUpdate r B = List.foldl crcStep r (byteBitsCode B) := by
  have hB' : B < 256 := by omega
  have hB7 : B <<< 7 < 2 ^ 15 := by rw [Nat.shiftLeft_eq]; norm_num; omega
  have hx : r ^^^ (B <<< 7) < 2 ^ 15 := Nat.xor_lt_two_pow hr hB7
  have hx7 : (r ^^^ (B <<< 7)) >>> 7 < 256 := by
    rw [Nat.shiftRight_eq_div_pow]
    have : r ^^^ (B <<< 7) < 256 * 2 ^ 7 := by norm_num at hx ⊢; omega
    exact (Nat.div_lt_iff_lt_mul (by norm_num)).mpr this
  have hxlo : (r ^^^ (B <<< 7)) &&& 127 < 128 := by
    rw [show (127 : Nat) = 2 ^ 7 - 1 by norm_num, Nat.and_pow_two_sub_one_eq_mod]
    exact Nat.mod_lt _ (by norm_num)
  have hlen : (byteBitsCode B).length = 8 := by simp [byteBitsCode]
  -- right-hand side: split the register into (r ^^^ B<<7) and B<<7, the input
  -- bits into zeros and the bits of the byte, and apply GF(2) linearity
  have hA : List.foldl crcStep r (byteBitsCode B) =
      List.foldl crcStep ((r ^^^ (B <<< 7)) ^^^ (B <<< 7))
        (List.zipWith Bool.xor (List.replicate 8 false) (byteBitsCode B)) := by
    rw [Nat.xor_cancel_right, ← hlen, zipWith_xor_replicate_false]
  rw [hA, foldl_crcStep_linear _ _ _ _ (by simp [hlen]), self_feed B hB', Nat.xor_zero]
  -- now split the remaining zero-fed register into its high byte and low 7 bits
  have hB2 : List.foldl crcStep (r ^^^ (B <<< 7)) (List.replicate 8 false) =
      List.foldl crcStep ((((r ^^^ (B <<< 7)) >>> 7) <<< 7) ^^^ ((r ^^^ (B <<< 7)) &&& 127))
        (List.zipWith Bool.xor (List.replicate 8 false) (List.replicate 8 false)) := by
    rw [hi_lo_decomp]
    have : List.zipWith Bool.xor (List.replicate 8 false) (List.replicate 8 false) =
        List.replicate 8 false := by
      have h0 := zipWith_xor_replicate_false (List.replicate 8 false)
      simp only [List.length_replicate] at h0
      exact h0
    rw [this]
  rw [hB2, foldl_crcStep_linear _ _ _ _ (by simp), table_entry_feed _ hx7, low_feed _ hxlo]
  -- left-hand side: simplify the table index and the masked shift
  have hidx : ((r >>> 7) ^^^ B) &&& 0xFF = (r ^^^ (B <<< 7)) >>> 7 := by
    rw [shiftRight_xor_distrib, Nat.shiftLeft_shiftRight]
    have hr7 : r >>> 7 < 2 ^ 8 := by
      rw [Nat.shiftRight_eq_div_pow]
      exact (Nat.div_lt_iff_lt_mul (by norm_num)).mpr (by norm_num at hr ⊢; omega)
    rw [show (0xFF : Nat) = 2 ^ 8 - 1 by norm_num]
    exact Nat.and_pow_two_sub_one_of_lt_two_pow (Nat.xor_lt_two_pow hr7 hB)
  have hlo : (r ^^^ (B <<< 7)) &&& 127 = r &&& 127 := by
    rw [Nat.and_xor_distrib_right]
    have : (B <<< 7) &&& 127 = 0 := by
      rw [Nat.shiftLeft_eq, show (127 : Nat) = 2 ^ 7 - 1 by norm_num,
        Nat.and_pow_two_sub_one_eq_mod, Nat.mul_mod_left]
    rw [this, Nat.xor_zero]
  unfold byteUpdate
  rw [hidx, Nat.and_xor_distrib_right, shl8_mask,
    Nat.and_pow_two_sub_one_of_lt_two_pow (x := generate_crc_table _) (n := 15) ?tbl, hlo,
    Nat.xor_comm]
  case tbl => exact table_lt _ hx7

/-- The table-driven loop agrees with the bit-serial fold from any 15-bit
register. -/
theorem crcOptGo_eq_foldl : ∀ (bits : List Bool) (r : Nat), r < 2 ^ 15 →
    crcOptGo r bits = List.foldl crcStep r bits
  | b0 :: b1 :: b2 :: b3 :: b4 :: b5 :: b6 :: b7 :: rest, r, hr => by
    have hby := bitsToByte8_lt b0 b1 b2 b3 b4 b5 b6 b7
    have ih := crcOptGo_eq_foldl rest (byteUpdate r (bitsToByte8 b0 b1 b2 b3 b4 b5 b6 b7))
      (byteUpdate_lt _ _)
    show crcOptGo (byteUpdate r (bitsToByte8 b0 b1 b2 b3 b4 b5 b6 b7)) rest = _
    rw [ih, byteUpdate_eq_foldl r _ hr (by norm_num; omega), byteBitsCode_bitsToByte8]
    rfl
  | [], _, _ => rfl
  | [_], _, _ => rfl
  | [_, _], _, _ => rfl
  | [_, _, _], _, _ => rfl
  | [_, _, _, _], _, _ => rfl
  | [_, _, _, _, _], _, _ => rfl
  | [_, _, _, _, _, _], _, _ => rfl
  | [_, _, _, _, _, _, _], _, _ => rfl

/-- C1: For every bit sequence of length 1 to 96, the table-driven path
equals the bit-serial reference path:
`calculate_can_crc_optimized bits = calculate_can_crc bits`. -/
theorem C1_optimized_eq_reference (bits : List Bool)
    (h1 : 1 ≤ bits.length) (h2 : bits.length ≤ 96) :
    calculate_can_crc_optimized bits = calculate_can_crc bits :=
  crcOptGo_eq_foldl bits 0 (by norm_num)

/-- Witness for C1 at the concrete 9-bit input `101010101`. -/
theorem C1_optimized_eq_reference_witness :
    1 ≤ ([true, false, true, false, true, false, true, false, true] : List Bool).length ∧
    ([true, false, true, false, true, false, true, false, true] : List Bool).length ≤ 96 ∧
    calculate_can_crc_optimized [true, false, true, false, true, false, true, false, true] =
      calculate_can_crc [true, false, true, false, true, false, true, false, true] :=
  ⟨by decide, by decide,
    C1_optimized_eq_reference [true, false, true, false, true, false, true, false, true]
      (by decide) (by decide)⟩

/-! ### Input parsing (`parse_binary_input`, `parse_hex_input`)

Rust `&str` is embedded as `List Char`.  `char::is_whitespace` is the Unicode
White_Space property, listed explicitly below.  `str::to_uppercase` is
modelled on its ASCII fragment only: the real function additionally applies
Unicode special casing, with one-to-many expansions (U+00DF becomes "SS",
U+FB00 becomes "FF") that can even produce hex digits.  The model therefore
agrees with the program exactly on inputs whose trimmed text is ASCII, and
any statement that depends on the uppercasing of arbitrary characters
carries an ASCII hypothesis on the trimmed input. -/

/-- Rust `char::is_whitespace`: the Unicode White_Space code points. -/
def rustIsWhitespace (c : Char) : Bool :=
  [0x9, 0xA, 0xB, 0xC, 0xD, 0x20, 0x85, 0xA0, 0x1680, 0x2000, 0x2001, 0x2002, 0x2003,
    0x2004, 0x2005, 0x2006, 0x2007, 0x2008, 0x2009, 0x200A, 0x2028, 0x2029, 0x202F,
    0x205F, 0x3000].contains c.toNat

/-- Rust `char::is_ascii_hexdigit`. -/
def isAsciiHexdigit (c : Char) : Bool :=
  ('0' ≤ c && c ≤ '9') || ('A' ≤ c && c ≤ 'F') || ('a' ≤ c && c ≤ 'f')

/-- ASCII fragment of Rust `str::to_uppercase`, applied per character and
identity beyond ASCII.  It agrees with the real `str::to_uppercase` exactly
on ASCII text; outside ASCII the real function applies Unicode special
casing, including one-to-many expansions such as U+FB00 becoming "FF", so
results about `parse_hex_input` on inputs with offending non-ASCII
characters must restrict the trimmed input to ASCII. -/
def rustToUppercase (c : Char) : Char :=
  if 'a' ≤ c && c ≤ 'z' then Char.ofNat (c.toNat - 32) else c

/-- Rust `str::trim`: strip leading and trailing whitespace. -/
def rustTrim (l : List Char) : List Char :=
  ((l.dropWhile rustIsWhitespace).reverse.dropWhile rustIsWhitespace).reverse

/-- A single-quote character, used inside the diagnostic messages. -/
def quoteChar : String := String.mk [Char.ofNat 39]

def emptyInputMsg : String := "❌ Błąd: Dane wejściowe są puste"

def invalidCharsBinMsg (s : String) : String :=
  "❌ Błąd: Znaleziono nieprawidłowe znaki: " ++ quoteChar ++ s ++ quoteChar ++
    " (dozwolone tylko: 0, 1, spacje)"

def binNoValidMsg : String := "❌ Błąd: Brak prawidłowych danych binarnych (tylko 0 i 1)"

def binTooLongMsg (n : Nat) : String :=
  "❌ Błąd: Dane za długie: " ++ toString n ++ " bitów (maksymalnie dozwolone: 96 bitów)"

def invalidCharsHexMsg (s : String) : String :=
  "❌ Błąd: Znaleziono nieprawidłowe znaki: " ++ quoteChar ++ s ++ quoteChar ++
    " (dozwolone tylko: 0-9, A-F, spacje)"

def hexNoValidMsg : String := "❌ Błąd: Brak prawidłowych danych hex"

def oddLengthMsg (n : Nat) : String :=
  "❌ Błąd: Nieparzysta liczba znaków hex: " ++ toString n ++ " (wymagana parzysta liczba)"

def hexTooLongMsg (nb : Nat) : String :=
  "❌ Błąd: Dane za długie: " ++ toString nb ++ " bajtów = " ++ toString (nb * 8) ++
    " bitów (maksymalnie: 12 bajtów = 96 bitów)"

def hexFormatMsg : String := "❌ Błąd: Nieprawidłowy format hex"

/-- The `invalid_chars` list of `parse_binary_input`: characters that are
neither whitespace nor `'0'` nor `'1'`, in input order. -/
def binInvalidOf (input : List Char) : List Char :=
  input.filter (fun c => !rustIsWhitespace c && c != '0' && c != '1')

/-- The `cleaned` list of `parse_binary_input`: the retained `'0'`/`'1'`
characters. -/
def binDigitsOf (input : List Char) : List Char :=
  input.filter (fun c => c == '0' || c == '1')

/-- Embedding of `parse_binary_input` (src/lib.rs lines 26–62).  The Rust local bindings
`invalid_chars` and `cleaned` are the named functions above. -/
def parse_binary_input (input : List Char) : Except String (List Bool) :=
  if (rustTrim input).isEmpty then .error emptyInputMsg
  else if !(binInvalidOf input).isEmpty then
    .error (invalidCharsBinMsg (String.mk ((binInvalidOf input).take 5)))
  else if (binDigitsOf input).isEmpty then .error binNoValidMsg
  else if (binDigitsOf input).length > 96 then .error (binTooLongMsg (binDigitsOf input).length)
  else .ok ((binDigitsOf input).map (fun c => c == '1'))

/-- Value of an ASCII hex digit (0 on other characters, never reached). -/
def hexDigitValue (c : Char) : Nat :=
  if '0' ≤ c && c ≤ '9' then c.toNat - '0'.toNat
  else if 'A' ≤ c && c ≤ 'F' then c.toNat - 'A'.toNat + 10
  else if 'a' ≤ c && c ≤ 'f' then c.toNat - 'a'.toNat + 10
  else 0

/-- Rust `u8::from_str_radix(s, 16)` on a two-character slice: succeeds
exactly when both characters are hex digits (two hex digits always fit u8). -/
def u8_from_str_radix_16 (c1 c2 : Char) : Option Nat :=
  if isAsciiHexdigit c1 && isAsciiHexdigit c2 then
    some (16 * hexDigitValue c1 + hexDigitValue c2)
  else none

/-- The `(0..len).step_by(2)` decoding loop of `parse_hex_input`, collected
with `Result` short-circuiting.  It only runs after the even-length check, so
the one-character case cannot occur. -/
def hexPairsToBytes : List Char → Option (List Nat)
  | [] => some []
  | c1 :: c2 :: rest =>
    match u8_from_str_radix_16 c1 c2, hexPairsToBytes rest with
    | some b, some bs => some (b :: bs)
    | _, _ => none
  | [_] => none

/-- The `cleaned` string of `parse_hex_input`: trimmed and upper-cased. -/
def hexCleanedOf (input : List Char) : List Char :=
  (rustTrim input).map rustToUppercase

/-- The `invalid_chars` list of `parse_hex_input`: characters of `cleaned`
that are neither hex digits nor whitespace. -/
def hexInvalidOf (input : List Char) : List Char :=
  (hexCleanedOf input).filter (fun c => !isAsciiHexdigit c && !rustIsWhitespace c)

/-- The `hex_string` of `parse_hex_input`: the retained hex digits. -/
def hexDigitsOf (input : List Char) : List Char :=
  (hexCleanedOf input).filter (fun c => isAsciiHexdigit c)

/-- Embedding of `parse_hex_input` (src/lib.rs lines 65–118).  The Rust local bindings
`cleaned`, `invalid_chars` and `hex_string` are the named functions above. -/
def parse_hex_input (input : List Char) : Except String (List Bool) :=
  if (rustTrim input).isEmpty then .error emptyInputMsg
  else if !(hexInvalidOf input).isEmpty then
    .error (invalidCharsHexMsg (String.mk ((hexInvalidOf input).take 5)))
  else if (hexDigitsOf input).isEmpty then .error hexNoValidMsg
  else if (hexDigitsOf input).length % 2 != 0 then
    .error (oddLengthMsg (hexDigitsOf input).length)
  else
    match hexPairsToBytes (hexDigitsOf input) with
    | some byte_vec =>
      if byte_vec.length > 12 then .error (hexTooLongMsg byte_vec.length)
      else .ok (bytes_to_bits byte_vec)
    | none => .error hexFormatMsg

example : parse_binary_input ['1', '0', '1'] = .ok [true, false, true] := rfl
example : parse_hex_input ['F', 'f'] = .ok (bytes_to_bits [0xFF]) := rfl
example : parse_hex_input ['A', 'B', 'C'] = .error (oddLengthMsg 3) := rfl

/-! ### Batch runner (`compute_batch_crcs_optimized`)

The source (src/lib.rs lines 212–253) runs, for `iterations >= 100_000`,
`rayon::current_num_threads()` parallel workers.  Worker `thread_idx` loops
over `start..end` (with `chunk_size = (iterations / num_threads).max(1)`),
overwriting a local register each iteration, and then stores its last value
into a shared `AtomicU16` with `Ordering::Relaxed`; the function returns the
final load.  The embedding makes the two environmental parameters explicit:
`num_threads` (the rayon pool size) and `winner` (the worker whose store the
final load observes).  `verbose` only gates a `println!` and is kept as an
unused parameter. -/

def chunk_size (iterations num_threads : Nat) : Nat := max (iterations / num_threads) 1

/-- Start of the range of worker `thread_idx` (`start` in the source). -/
def workerRangeStart (iterations num_threads thread_idx : Nat) : Nat :=
  thread_idx * chunk_size iterations num_threads

/-- End of the range of worker `thread_idx` (`end` in the source). -/
def workerRangeEnd (iterations num_threads thread_idx : Nat) : Nat :=
  if thread_idx = num_threads - 1 then iterations
  else (thread_idx + 1) * chunk_size iterations num_threads

/-- The value worker `thread_idx` stores: `local_crc` starts at 0 and is
overwritten once per loop iteration (`start..end` has
`end - start` iterations, zero when `start >= end`). -/
def workerStore (bits : List Bool) (iterations num_threads thread_idx : Nat) : Nat :=
  (List.range (workerRangeEnd iterations num_threads thread_idx -
      workerRangeStart iterations num_threads thread_idx)).foldl
    (fun _ _ => calculate_can_crc_optimized bits) 0

/-- Embedding of `compute_batch_crcs_optimized` (src/lib.rs lines 212–253). -/
def compute_batch_crcs_optimized (bits : List Bool) (iterations : Nat) (verbose : Bool)
    (num_threads winner : Nat) : Nat :=
  if iterations = 1 then calculate_can_crc_optimized bits
  else if iterations ≥ 100000 then workerStore bits iterations num_threads winner
  else (List.range iterations).foldl (fun _ _ => calculate_can_crc_optimized bits) 0

theorem foldl_const_range (v : Nat) :
    ∀ n : Nat, (List.range n).foldl (fun _ _ => v) 0 = if n = 0 then 0 else v := by
  intro n
  cases n with
  | zero => rfl
  | succ m =>
    simp only [Nat.succ_ne_zero, if_false]
    induction m with
    | zero => rfl
    | succ k ih =>
      rw [List.range_succ, List.foldl_append] at ih ⊢
      simp at ih ⊢

/-! ### C2: the reference algorithm implements the spec recurrence -/

/-- The bit-serial recurrence exactly as §4.3 of the spec words it:
`feedback = nxt XOR (top bit of register, bit 14)`; shift the register left
by 1 masked to 15 bits; if `feedback`, XOR with the polynomial `0x4599`. -/
def crcStepSpec (reg : Nat) (nxt : Bool) : Nat :=
  let feedback := Bool.xor nxt (reg.testBit 14)
  let shifted := (reg <<< 1) &&& 0x7FFF
  if feedback then shifted ^^^ 0x4599 else shifted

/-- Spec-worded `crc_reference`: start from register 0, apply the
recurrence for each bit in order, return the register. -/
def crc_reference_spec (bits : List Bool) : Nat :=
  List.foldl crcStepSpec 0 bits

theorem crcStep_eq_spec (r : Nat) (n : Bool) : crcStep r n = crcStepSpec r n := by
  unfold crcStep crcStepSpec
  rw [bitFlag_eq_testBit]
  rfl

/-- C2: `calculate_can_crc` implements exactly the specified bit-serial
recurrence (register starts at 0; per bit: feedback = nxt XOR bit 14, shift
left masked to 15 bits, conditional XOR with 0x4599; return the register);
binary `"0"` parses to the single-bit sequence `[false]` whose CRC is 0x0000,
and the empty sequence yields 0. -/
theorem C2_reference_implements_recurrence :
    (∀ bits : List Bool, calculate_can_crc bits = crc_reference_spec bits) ∧
    parse_binary_input ['0'] = .ok [false] ∧
    calculate_can_crc [false] = 0 ∧
    calculate_can_crc [] = 0 := by
  refine ⟨fun bits => ?_, rfl, rfl, rfl⟩
  unfold calculate_can_crc crc_reference_spec
  rw [show crcStep = crcStepSpec from funext fun r => funext fun n => crcStep_eq_spec r n]

/-! ### C3: the lookup table entries -/

/-- C3: For every byte value `b < 256`, the table entry equals the
register obtained from `(b << 7) & 0x7FFF` by applying the bit-serial step 8
times with a zero input bit each step.  (The table is a pure constant of the
embedding — `generate_crc_table` is a function of the index alone.) -/
theorem C3_table_entries (b : Nat) (hb : b < 256) :
    generate_crc_table b =
      List.foldl crcStep ((b <<< 7) &&& 0x7FFF) (List.replicate 8 false) := by
  have hmask : (b <<< 7) &&& 0x7FFF = b <<< 7 := by
    rw [show (0x7FFF : Nat) = 2 ^ 15 - 1 by norm_num]
    refine Nat.and_pow_two_sub_one_of_lt_two_pow ?_
    rw [Nat.shiftLeft_eq]
    norm_num
    omega
  rw [hmask, table_entry_feed b hb]

/-- Witness for C3 at byte value 0xA7. -/
theorem C3_table_entries_witness :
    0xA7 < 256 ∧ generate_crc_table 0xA7 =
      List.foldl crcStep ((0xA7 <<< 7) &&& 0x7FFF) (List.replicate 8 false) :=
  ⟨by decide, C3_table_entries 0xA7 (by decide)⟩

/-! ### C4: the batch result is independent of the iteration count -/

theorem worker_ranges_nonempty (n t : Nat) (hn : 100000 ≤ n) (ht1 : 1 ≤ t) (ht2 : t ≤ 100000) :
    ∀ i < t, workerRangeStart n t i < workerRangeEnd n t i := by
  intro i hi
  have htn : t ≤ n := le_trans ht2 hn
  have hc1 : 1 ≤ n / t := (Nat.one_le_div_iff (by omega)).mpr htn
  have hchunk : chunk_size n t = n / t := by
    unfold chunk_size
    exact Nat.max_eq_left hc1
  unfold workerRangeStart workerRangeEnd
  rw [hchunk]
  by_cases hit : i = t - 1
  · rw [if_pos hit, hit]
    have hmul : t * (n / t) ≤ n := by
      have h := Nat.div_mul_le_self n t
      calc t * (n / t) = n / t * t := Nat.mul_comm _ _
        _ ≤ n := h
    have e : (t - 1) * (n / t) + 1 * (n / t) = t * (n / t) := by
      rw [← Nat.add_mul, Nat.sub_add_cancel ht1]
    omega
  · rw [if_neg hit]
    have e : (i + 1) * (n / t) = i * (n / t) + n / t := Nat.succ_mul i (n / t)
    omega

/-- C4: For every bit sequence, every iteration count in
`[1, 1_000_000_000]`, either verbose flag, any worker-pool size
`1 ≤ num_threads ≤ 100_000` and any winning worker, the batch result equals
`calculate_can_crc_optimized bits` — the `n = 1` shortcut, the sequential
loop and the parallel partition all agree — and in the parallel regime every
worker has a non-empty range, so every worker stores that same value. -/
theorem C4_batch_independent (bits : List Bool) (n t w : Nat) (verbose : Bool)
    (hn1 : 1 ≤ n) (hn2 : n ≤ 1000000000) (ht1 : 1 ≤ t) (ht2 : t ≤ 100000) (hw : w < t) :
    compute_batch_crcs_optimized bits n verbose t w = calculate_can_crc_optimized bits ∧
    (100000 ≤ n → ∀ i < t, workerRangeStart n t i < workerRangeEnd n t i) := by
  constructor
  · unfold compute_batch_crcs_optimized
    by_cases h1 : n = 1
    · rw [if_pos h1]
    · rw [if_neg h1]
      by_cases h2 : n ≥ 100000
      · rw [if_pos h2]
        have hne := worker_ranges_nonempty n t h2 ht1 ht2 w hw
        unfold workerStore
        rw [foldl_const_range, if_neg (by omega)]
      · rw [if_neg h2]
        rw [foldl_const_range, if_neg (by omega)]
  · intro h2
    exact worker_ranges_nonempty n t h2 ht1 ht2

/-- Witness for C4: 123456 iterations over 8 workers, worker 3 winning. -/
theorem C4_batch_independent_witness :
    1 ≤ 123456 ∧ 123456 ≤ 1000000000 ∧ 1 ≤ 8 ∧ 8 ≤ 100000 ∧ 3 < 8 ∧
    (compute_batch_crcs_optimized [true, true, false] 123456 true 8 3 =
        calculate_can_crc_optimized [true, true, false] ∧
      (100000 ≤ 123456 → ∀ i < 8, workerRangeStart 123456 8 i < workerRangeEnd 123456 8 i)) :=
  ⟨by decide, by decide, by decide, by decide, by decide,
    C4_batch_independent [true, true, false] 123456 8 3 true (by decide) (by decide)
      (by decide) (by decide) (by decide)⟩

/-! ### C6: results and intermediate registers are 15-bit values -/

theorem foldl_crcStep_le : ∀ (bits : List Bool) (r : Nat), r ≤ 0x7FFF →
    List.foldl crcStep r bits ≤ 0x7FFF
  | [], _, hr => hr
  | b :: bits, r, _ =>
    foldl_crcStep_le bits (crcStep r b) (by have := crcStep_lt r b; omega)

/-- C6: Every value returned by `calculate_can_crc`,
`calculate_can_crc_optimized` and `compute_batch_crcs_optimized` lies in
`[0, 0x7FFF]` (bit 15 is always zero), and the 15-bit bound is preserved by
every intermediate register update (bit-serial step and table byte step). -/
theorem C6_fifteen_bit_bound :
    (∀ bits : List Bool, calculate_can_crc bits ≤ 0x7FFF) ∧
    (∀ bits : List Bool, calculate_can_crc_optimized bits ≤ 0x7FFF) ∧
    (∀ (r : Nat) (b : Bool), crcStep r b ≤ 0x7FFF) ∧
    (∀ r B : Nat, byteUpdate r B ≤ 0x7FFF) ∧
    (∀ (bits : List Bool) (n : Nat) (verbose : Bool) (t w : Nat),
      compute_batch_crcs_optimized bits n verbose t w ≤ 0x7FFF) := by
  have hstep : ∀ (r : Nat) (b : Bool), crcStep r b ≤ 0x7FFF := fun r b => by
    have := crcStep_lt r b; omega
  have href : ∀ bits : List Bool, calculate_can_crc bits ≤ 0x7FFF := fun bits =>
    foldl_crcStep_le bits 0 (by omega)
  have hopt : ∀ bits : List Bool, calculate_can_crc_optimized bits ≤ 0x7FFF := fun bits => by
    unfold calculate_can_crc_optimized
    rw [crcOptGo_eq_foldl bits 0 (by norm_num)]
    exact foldl_crcStep_le bits 0 (by omega)
  refine ⟨href, hopt, hstep, fun r B => by have := byteUpdate_lt r B; omega, ?_⟩
  intro bits n verbose t w
  unfold compute_batch_crcs_optimized workerStore
  split
  · exact hopt bits
  · split
    · rw [foldl_const_range]
      split
      · omega
      · exact hopt bits
    · rw [foldl_const_range]
      split
      · omega
      · exact hopt bits

/-! ### C5: hex and binary renderings of the same bytes parse identically -/

theorem dropWhile_eq_self_of (p : α → Bool) : ∀ (l : List α), (∀ c ∈ l, p c = false) →
    List.dropWhile p l = l
  | [], _ => rfl
  | c :: l, h => by
    rw [List.dropWhile_cons, h c (by simp)]
    simp

theorem map_eq_self_of {f : α → α} : ∀ (l : List α), (∀ c ∈ l, f c = c) → l.map f = l
  | [], _ => rfl
  | c :: l, h => by
    rw [List.map_cons, h c (by simp), map_eq_self_of l (fun x hx => h x (by simp [hx]))]

theorem rustTrim_eq_self (l : List Char) (h : ∀ c ∈ l, rustIsWhitespace c = false) :
    rustTrim l = l := by
  unfold rustTrim
  rw [dropWhile_eq_self_of _ l h,
    dropWhile_eq_self_of _ l.reverse (fun c hc => h c (List.mem_reverse.mp hc)),
    List.reverse_reverse]

theorem rustTrim_nil_iff (l : List Char) :
    rustTrim l = [] ↔ ∀ c ∈ l, rustIsWhitespace c = true := by
  unfold rustTrim
  constructor
  · intro h c hc
    rw [List.reverse_eq_nil_iff, List.dropWhile_eq_nil_iff] at h
    have hsplit := List.takeWhile_append_dropWhile (p := rustIsWhitespace) (l := l)
    rcases List.mem_append.mp (by rw [hsplit]; exact hc) with h1 | h2
    · exact List.mem_takeWhile_imp h1
    · exact h c (List.mem_reverse.mpr h2)
  · intro h
    rw [List.dropWhile_eq_nil_iff.mpr h]
    rfl

/-- Uppercase hex digit character for a value `d < 16` (the rendering used to
state C5; `'0'` is 48, `'A'` is 65). -/
def hexChar (d : Nat) : Char :=
  if d < 10 then Char.ofNat (48 + d) else Char.ofNat (55 + d)

/-- Two-hex-digit rendering of one byte. -/
def byteToHexChars (b : Nat) : List Char := [hexChar (b / 16), hexChar (b % 16)]

/-- Two-hex-digits-per-byte textual rendering of a byte list. -/
def hexRender (bytes : List Nat) : List Char := (bytes.map byteToHexChars).flatten

/-- Eight-character binary rendering of one byte, MSB first. -/
def byteToBinChars (b : Nat) : List Char :=
  (List.range 8).map (fun j => if b.testBit (7 - j) then '1' else '0')

/-- Binary rendering of a byte list (8 bits per byte, MSB first). -/
def binRender (bytes : List Nat) : List Char := (bytes.map byteToBinChars).flatten

theorem hexCharFacts : ∀ b < 256, ∀ c ∈ byteToHexChars b,
    isAsciiHexdigit c = true ∧ rustIsWhitespace c = false ∧ rustToUppercase c = c := by decide

theorem binCharFacts : ∀ b < 256, ∀ c ∈ byteToBinChars b,
    (c = '0' ∨ c = '1') ∧ rustIsWhitespace c = false := by decide

theorem binMapFact : ∀ b < 256, (byteToBinChars b).map (fun c => c == '1') = byteBitsCode b := by
  decide

theorem pairFact : ∀ b < 256, u8_from_str_radix_16 (hexChar (b / 16)) (hexChar (b % 16)) =
    some b := by decide

theorem hexRender_length : ∀ bytes : List Nat, (hexRender bytes).length = 2 * bytes.length
  | [] => rfl
  | b :: rest => by
    simp only [hexRender, List.map_cons, List.flatten_cons, List.length_append,
      List.length_cons]
    have := hexRender_length rest
    simp only [hexRender] at this
    simp [byteToHexChars, this]
    omega

theorem binRender_length : ∀ bytes : List Nat, (binRender bytes).length = 8 * bytes.length
  | [] => rfl
  | b :: rest => by
    simp only [binRender, List.map_cons, List.flatten_cons, List.length_append]
    have := binRender_length rest
    simp only [binRender] at this
    simp [byteToBinChars, this]
    omega

theorem hexRender_mem (bytes : List Nat) (hb : ∀ b ∈ bytes, b < 256) :
    ∀ c ∈ hexRender bytes,
      isAsciiHexdigit c = true ∧ rustIsWhitespace c = false ∧ rustToUppercase c = c := by
  intro c hc
  rcases List.mem_flatten.mp hc with ⟨l, hl, hcl⟩
  rcases List.mem_map.mp hl with ⟨b, hbmem, rfl⟩
  exact hexCharFacts b (hb b hbmem) c hcl

theorem binRender_mem (bytes : List Nat) (hb : ∀ b ∈ bytes, b < 256) :
    ∀ c ∈ binRender bytes, (c = '0' ∨ c = '1') ∧ rustIsWhitespace c = false := by
  intro c hc
  rcases List.mem_flatten.mp hc with ⟨l, hl, hcl⟩
  rcases List.mem_map.mp hl with ⟨b, hbmem, rfl⟩
  exact binCharFacts b (hb b hbmem) c hcl

theorem hexPairs_render : ∀ (bytes : List Nat), (∀ b ∈ bytes, b < 256) →
    hexPairsToBytes (hexRender bytes) = some bytes
  | [], _ => rfl
  | b :: rest, h => by
    have hstep : hexRender (b :: rest) =
        hexChar (b / 16) :: hexChar (b % 16) :: hexRender rest := by
      simp [hexRender, byteToHexChars]
    rw [hstep]
    unfold hexPairsToBytes
    rw [pairFact b (h b (by simp)), hexPairs_render rest (fun x hx => h x (by simp [hx]))]

theorem binRender_map (bytes : List Nat) (hb : ∀ b ∈ bytes, b < 256) :
    (binRender bytes).map (fun c => c == '1') = bytes_to_bits bytes := by
  unfold binRender bytes_to_bits
  rw [List.map_flatten, List.map_map]
  congr 1
  exact List.map_congr_left (fun b hbm => binMapFact b (hb b hbm))

/-- C5: For every byte list of length 1–12 (bytes below 256), the
two-hex-digit-per-byte rendering parsed with `parse_hex_input` and the
8-bits-per-byte MSB-first binary rendering parsed with `parse_binary_input`
both succeed and both yield `bytes_to_bits bytes` — the identical
BitSequence, hence the identical CRC. -/
theorem C5_hex_binary_parsers_agree (bytes : List Nat) (h1 : 1 ≤ bytes.length)
    (h2 : bytes.length ≤ 12) (hb : ∀ b ∈ bytes, b < 256) :
    parse_hex_input (hexRender bytes) = .ok (bytes_to_bits bytes) ∧
    parse_binary_input (binRender bytes) = .ok (bytes_to_bits bytes) := by
  constructor
  · have hmem := hexRender_mem bytes hb
    have htrim : rustTrim (hexRender bytes) = hexRender bytes :=
      rustTrim_eq_self _ (fun c hc => (hmem c hc).2.1)
    have hlen := hexRender_length bytes
    have hne : hexRender bytes ≠ [] := by
      intro h0
      have h0l := hexRender_length bytes
      rw [h0] at h0l
      simp only [List.length_nil] at h0l
      omega
    have hclean : hexCleanedOf (hexRender bytes) = hexRender bytes := by
      unfold hexCleanedOf
      rw [htrim]
      exact map_eq_self_of _ (fun c hc => (hmem c hc).2.2)
    have hinv : hexInvalidOf (hexRender bytes) = [] := by
      unfold hexInvalidOf
      rw [hclean]
      exact List.filter_eq_nil_iff.mpr (fun c hc => by simp [(hmem c hc).1])
    have hdig : hexDigitsOf (hexRender bytes) = hexRender bytes := by
      unfold hexDigitsOf
      rw [hclean]
      exact List.filter_eq_self.mpr (fun c hc => (hmem c hc).1)
    unfold parse_hex_input
    rw [htrim, hinv, hdig, hexPairs_render bytes hb,
      if_neg (by simp only [List.isEmpty_iff]; exact hne),
      if_neg (by decide),
      if_neg (by simp only [List.isEmpty_iff]; exact hne),
      if_neg (by rw [hlen]; simp [Nat.mul_mod_right])]
    dsimp only
    rw [if_neg (by omega)]
  · have hmem := binRender_mem bytes hb
    have htrim : rustTrim (binRender bytes) = binRender bytes :=
      rustTrim_eq_self _ (fun c hc => (hmem c hc).2)
    have hlen := binRender_length bytes
    have hne : binRender bytes ≠ [] := by
      intro h0
      have h0l := binRender_length bytes
      rw [h0] at h0l
      simp only [List.length_nil] at h0l
      omega
    have hinv : binInvalidOf (binRender bytes) = [] := by
      unfold binInvalidOf
      refine List.filter_eq_nil_iff.mpr (fun c hc => ?_)
      rcases (hmem c hc).1 with h | h <;> simp [h]
    have hdig : binDigitsOf (binRender bytes) = binRender bytes := by
      unfold binDigitsOf
      refine List.filter_eq_self.mpr (fun c hc => ?_)
      rcases (hmem c hc).1 with h | h <;> simp [h]
    unfold parse_binary_input
    rw [htrim, hinv, hdig,
      if_neg (by simp only [List.isEmpty_iff]; exact hne),
      if_neg (by decide),
      if_neg (by simp only [List.isEmpty_iff]; exact hne),
      if_neg (by rw [hlen]; omega),
      binRender_map bytes hb]

/-- Witness for C5 at the byte list `[0xAB, 0x05]`. -/
theorem C5_hex_binary_parsers_agree_witness :
    1 ≤ ([0xAB, 0x05] : List Nat).length ∧ ([0xAB, 0x05] : List Nat).length ≤ 12 ∧
    (∀ b ∈ ([0xAB, 0x05] : List Nat), b < 256) ∧
    (parse_hex_input (hexRender [0xAB, 0x05]) = .ok (bytes_to_bits [0xAB, 0x05]) ∧
      parse_binary_input (binRender [0xAB, 0x05]) = .ok (bytes_to_bits [0xAB, 0x05])) :=
  ⟨by decide, by decide, by decide,
    C5_hex_binary_parsers_agree [0xAB, 0x05] (by decide) (by decide) (by decide)⟩

/-! ### Distinctness of the diagnostic messages

Interpolated messages are told apart by a character inside their constant
leading constant parts (position 8 is the first character after the common
leading marker and label). -/

theorem string_ne_of_data_get (s t : String) (i : Nat) (h : s.data[i]? ≠ t.data[i]?) :
    s ≠ t :=
  fun he => h (by rw [he])

theorem invalidCharsBinMsg_ne_empty (s : String) : invalidCharsBinMsg s ≠ emptyInputMsg := by
  apply string_ne_of_data_get _ _ 8
  simp only [invalidCharsBinMsg, emptyInputMsg, String.data_append, List.append_assoc]
  rw [List.getElem?_append_left (by decide)]
  decide

theorem binNoValidMsg_ne_empty : binNoValidMsg ≠ emptyInputMsg := by decide

theorem binTooLongMsg_ne_empty (n : Nat) : binTooLongMsg n ≠ emptyInputMsg := by
  apply string_ne_of_data_get _ _ 13
  simp only [binTooLongMsg, emptyInputMsg, String.data_append, List.append_assoc]
  rw [List.getElem?_append_left (by decide)]
  decide

theorem invalidCharsHexMsg_ne_empty (s : String) : invalidCharsHexMsg s ≠ emptyInputMsg := by
  apply string_ne_of_data_get _ _ 8
  simp only [invalidCharsHexMsg, emptyInputMsg, String.data_append, List.append_assoc]
  rw [List.getElem?_append_left (by decide)]
  decide

theorem hexNoValidMsg_ne_empty : hexNoValidMsg ≠ emptyInputMsg := by decide

theorem oddLengthMsg_ne_empty (n : Nat) : oddLengthMsg n ≠ emptyInputMsg := by
  apply string_ne_of_data_get _ _ 8
  simp only [oddLengthMsg, emptyInputMsg, String.data_append, List.append_assoc]
  rw [List.getElem?_append_left (by decide)]
  decide

theorem hexTooLongMsg_ne_empty (n : Nat) : hexTooLongMsg n ≠ emptyInputMsg := by
  apply string_ne_of_data_get _ _ 13
  simp only [hexTooLongMsg, emptyInputMsg, String.data_append, List.append_assoc]
  rw [List.getElem?_append_left (by decide)]
  decide

theorem hexFormatMsg_ne_empty : hexFormatMsg ≠ emptyInputMsg := by decide

theorem oddLengthMsg_ne_hexTooLongMsg (a b : Nat) : oddLengthMsg a ≠ hexTooLongMsg b := by
  apply string_ne_of_data_get _ _ 8
  simp only [oddLengthMsg, hexTooLongMsg, String.data_append, List.append_assoc]
  rw [List.getElem?_append_left (by decide), List.getElem?_append_left (by decide)]
  decide

theorem invalidCharsHexMsg_ne_format (s : String) : invalidCharsHexMsg s ≠ hexFormatMsg := by
  apply string_ne_of_data_get _ _ 8
  simp only [invalidCharsHexMsg, hexFormatMsg, String.data_append, List.append_assoc]
  rw [List.getElem?_append_left (by decide)]
  decide

theorem hexNoValidMsg_ne_format : hexNoValidMsg ≠ hexFormatMsg := by decide

theorem oddLengthMsg_ne_format (a : Nat) : oddLengthMsg a ≠ hexFormatMsg := by
  apply string_ne_of_data_get _ _ 12
  simp only [oddLengthMsg, hexFormatMsg, String.data_append, List.append_assoc]
  rw [List.getElem?_append_left (by decide)]
  decide

theorem hexTooLongMsg_ne_format (a : Nat) : hexTooLongMsg a ≠ hexFormatMsg := by
  apply string_ne_of_data_get _ _ 8
  simp only [hexTooLongMsg, hexFormatMsg, String.data_append, List.append_assoc]
  rw [List.getElem?_append_left (by decide)]
  decide

theorem emptyInputMsg_ne_format : emptyInputMsg ≠ hexFormatMsg := by decide

/-- On an even-length list of hex digits, the pair-decoding loop always
succeeds and yields half as many bytes. -/
theorem hexPairs_total : ∀ (l : List Char), (∀ c ∈ l, isAsciiHexdigit c = true) →
    l.length % 2 = 0 → ∃ bs, hexPairsToBytes l = some bs ∧ bs.length = l.length / 2
  | [], _, _ => ⟨[], rfl, rfl⟩
  | [c], _, hev => by simp at hev
  | c1 :: c2 :: rest, hhex, hev => by
    have hev2 : rest.length % 2 = 0 := by
      simp only [List.length_cons] at hev
      omega
    obtain ⟨bs, hbs, hlen⟩ := hexPairs_total rest (fun c hc => hhex c (by simp [hc])) hev2
    refine ⟨(16 * hexDigitValue c1 + hexDigitValue c2) :: bs, ?_, ?_⟩
    · unfold hexPairsToBytes u8_from_str_radix_16
      rw [hhex c1 (by simp), hhex c2 (by simp), hbs]
      simp
    · simp only [List.length_cons, hlen]
      omega

/-! ### Branch classification of the two parsers -/

/-- Every run of `parse_binary_input` lands in exactly one of the five
branches of the source. -/
theorem parse_binary_cases (input : List Char) :
    (rustTrim input = [] ∧ parse_binary_input input = .error emptyInputMsg) ∨
    (rustTrim input ≠ [] ∧ binInvalidOf input ≠ [] ∧
      parse_binary_input input =
        .error (invalidCharsBinMsg (String.mk ((binInvalidOf input).take 5)))) ∨
    (rustTrim input ≠ [] ∧ binInvalidOf input = [] ∧ binDigitsOf input = [] ∧
      parse_binary_input input = .error binNoValidMsg) ∨
    (rustTrim input ≠ [] ∧ binInvalidOf input = [] ∧ binDigitsOf input ≠ [] ∧
      96 < (binDigitsOf input).length ∧
      parse_binary_input input = .error (binTooLongMsg (binDigitsOf input).length)) ∨
    (rustTrim input ≠ [] ∧ binInvalidOf input = [] ∧ binDigitsOf input ≠ [] ∧
      (binDigitsOf input).length ≤ 96 ∧
      parse_binary_input input = .ok ((binDigitsOf input).map (fun c => c == '1'))) := by
  by_cases h0 : rustTrim input = []
  · exact Or.inl ⟨h0, by unfold parse_binary_input; rw [if_pos (List.isEmpty_iff.mpr h0)]⟩
  · right
    by_cases h1 : binInvalidOf input = []
    · right
      by_cases h2 : binDigitsOf input = []
      · refine Or.inl ⟨h0, h1, h2, ?_⟩
        unfold parse_binary_input
        rw [if_neg (by simp only [List.isEmpty_iff]; exact h0),
          if_neg (by rw [h1]; decide), if_pos (List.isEmpty_iff.mpr h2)]
      · right
        by_cases h3 : 96 < (binDigitsOf input).length
        · refine Or.inl ⟨h0, h1, h2, h3, ?_⟩
          unfold parse_binary_input
          rw [if_neg (by simp only [List.isEmpty_iff]; exact h0),
            if_neg (by rw [h1]; decide),
            if_neg (by simp only [List.isEmpty_iff]; exact h2), if_pos h3]
        · refine Or.inr ⟨h0, h1, h2, by omega, ?_⟩
          unfold parse_binary_input
          rw [if_neg (by simp only [List.isEmpty_iff]; exact h0),
            if_neg (by rw [h1]; decide),
            if_neg (by simp only [List.isEmpty_iff]; exact h2), if_neg h3]
    · refine Or.inl ⟨h0, h1, ?_⟩
      unfold parse_binary_input
      rw [if_neg (by simp only [List.isEmpty_iff]; exact h0),
        if_pos (by simp only [Bool.not_eq_true', List.isEmpty_eq_false]; exact h1)]

/-- Every run of `parse_hex_input` lands in exactly one of the branches of
the source; in the decoding branch the byte conversion always succeeds. -/
theorem parse_hex_cases (input : List Char) :
    (rustTrim input = [] ∧ parse_hex_input input = .error emptyInputMsg) ∨
    (rustTrim input ≠ [] ∧ hexInvalidOf input ≠ [] ∧
      parse_hex_input input =
        .error (invalidCharsHexMsg (String.mk ((hexInvalidOf input).take 5)))) ∨
    (rustTrim input ≠ [] ∧ hexInvalidOf input = [] ∧ hexDigitsOf input = [] ∧
      parse_hex_input input = .error hexNoValidMsg) ∨
    (rustTrim input ≠ [] ∧ hexInvalidOf input = [] ∧ hexDigitsOf input ≠ [] ∧
      (hexDigitsOf input).length % 2 = 1 ∧
      parse_hex_input input = .error (oddLengthMsg (hexDigitsOf input).length)) ∨
    (∃ bs, rustTrim input ≠ [] ∧ hexInvalidOf input = [] ∧ hexDigitsOf input ≠ [] ∧
      (hexDigitsOf input).length % 2 = 0 ∧
      hexPairsToBytes (hexDigitsOf input) = some bs ∧
      bs.length = (hexDigitsOf input).length / 2 ∧
      ((12 < bs.length ∧ parse_hex_input input = .error (hexTooLongMsg bs.length)) ∨
        (bs.length ≤ 12 ∧ parse_hex_input input = .ok (bytes_to_bits bs)))) := by
  have hhex : ∀ c ∈ hexDigitsOf input, isAsciiHexdigit c = true := fun c hc =>
    (List.mem_filter.mp hc).2
  by_cases h0 : rustTrim input = []
  · exact Or.inl ⟨h0, by unfold parse_hex_input; rw [if_pos (List.isEmpty_iff.mpr h0)]⟩
  · right
    by_cases h1 : hexInvalidOf input = []
    · right
      by_cases h2 : hexDigitsOf input = []
      · refine Or.inl ⟨h0, h1, h2, ?_⟩
        unfold parse_hex_input
        rw [if_neg (by simp only [List.isEmpty_iff]; exact h0),
          if_neg (by rw [h1]; decide), if_pos (List.isEmpty_iff.mpr h2)]
      · right
        by_cases h3 : (hexDigitsOf input).length % 2 = 1
        · refine Or.inl ⟨h0, h1, h2, h3, ?_⟩
          unfold parse_hex_input
          rw [if_neg (by simp only [List.isEmpty_iff]; exact h0),
            if_neg (by rw [h1]; decide),
            if_neg (by simp only [List.isEmpty_iff]; exact h2), if_pos (by simp [h3])]
        · have hev : (hexDigitsOf input).length % 2 = 0 := by omega
          obtain ⟨bs, hbs, hlen⟩ := hexPairs_total (hexDigitsOf input) hhex hev
          have heval : parse_hex_input input =
              if bs.length > 12 then .error (hexTooLongMsg bs.length)
              else .ok (bytes_to_bits bs) := by
            unfold parse_hex_input
            rw [if_neg (by simp only [List.isEmpty_iff]; exact h0),
              if_neg (by rw [h1]; decide),
              if_neg (by simp only [List.isEmpty_iff]; exact h2),
              if_neg (by simp [hev]), hbs]
          refine Or.inr ⟨bs, h0, h1, h2, hev, hbs, hlen, ?_⟩
          by_cases h4 : 12 < bs.length
          · exact Or.inl ⟨h4, by rw [heval, if_pos h4]⟩
          · exact Or.inr ⟨by omega, by rw [heval, if_neg h4]⟩
    · refine Or.inl ⟨h0, h1, ?_⟩
      unfold parse_hex_input
      rw [if_neg (by simp only [List.isEmpty_iff]; exact h0),
        if_pos (by simp only [Bool.not_eq_true', List.isEmpty_eq_false]; exact h1)]

theorem trim_ne_of_hexDigits_ne (input : List Char) (h : hexDigitsOf input ≠ []) :
    rustTrim input ≠ [] := fun ht =>
  h (by unfold hexDigitsOf hexCleanedOf; rw [ht]; rfl)

theorem trim_ne_of_binDigits_ne (input : List Char) (h : binDigitsOf input ≠ []) :
    rustTrim input ≠ [] := by
  intro ht
  apply h
  refine List.filter_eq_nil_iff.mpr (fun c hc => ?_)
  have hw := (rustTrim_nil_iff input).mp ht c hc
  intro hpred
  rcases (by simpa using hpred : c = '0' ∨ c = '1') with h' | h' <;> rw [h'] at hw <;>
    exact absurd hw (by decide)

/-! ### C9: the EmptyInput failure characterises all-whitespace input -/

/-- C9: For both parsers, the EmptyInput message is produced exactly for
inputs whose characters are all whitespace (including the empty input). -/
theorem C9_empty_input_iff (input : List Char) :
    (parse_binary_input input = .error emptyInputMsg ↔
      ∀ c ∈ input, rustIsWhitespace c = true) ∧
    (parse_hex_input input = .error emptyInputMsg ↔
      ∀ c ∈ input, rustIsWhitespace c = true) := by
  constructor
  · rcases parse_binary_cases input with ⟨h0, hres⟩ | ⟨h0, _, hres⟩ | ⟨h0, _, _, hres⟩ |
      ⟨h0, _, _, _, hres⟩ | ⟨h0, _, _, _, hres⟩
    · rw [hres]
      exact ⟨fun _ => (rustTrim_nil_iff input).mp h0, fun _ => rfl⟩
    · rw [hres]
      exact ⟨fun h => absurd (Except.error.inj h) (invalidCharsBinMsg_ne_empty _),
        fun hall => absurd ((rustTrim_nil_iff input).mpr hall) h0⟩
    · rw [hres]
      exact ⟨fun h => absurd (Except.error.inj h) binNoValidMsg_ne_empty,
        fun hall => absurd ((rustTrim_nil_iff input).mpr hall) h0⟩
    · rw [hres]
      exact ⟨fun h => absurd (Except.error.inj h) (binTooLongMsg_ne_empty _),
        fun hall => absurd ((rustTrim_nil_iff input).mpr hall) h0⟩
    · rw [hres]
      exact ⟨fun h => Except.noConfusion h,
        fun hall => absurd ((rustTrim_nil_iff input).mpr hall) h0⟩
  · rcases parse_hex_cases input with ⟨h0, hres⟩ | ⟨h0, _, hres⟩ | ⟨h0, _, _, hres⟩ |
      ⟨h0, _, _, _, hres⟩ | ⟨bs, h0, _, _, _, _, _, hsub⟩
    · rw [hres]
      exact ⟨fun _ => (rustTrim_nil_iff input).mp h0, fun _ => rfl⟩
    · rw [hres]
      exact ⟨fun h => absurd (Except.error.inj h) (invalidCharsHexMsg_ne_empty _),
        fun hall => absurd ((rustTrim_nil_iff input).mpr hall) h0⟩
    · rw [hres]
      exact ⟨fun h => absurd (Except.error.inj h) hexNoValidMsg_ne_empty,
        fun hall => absurd ((rustTrim_nil_iff input).mpr hall) h0⟩
    · rw [hres]
      exact ⟨fun h => absurd (Except.error.inj h) (oddLengthMsg_ne_empty _),
        fun hall => absurd ((rustTrim_nil_iff input).mpr hall) h0⟩
    · rcases hsub with ⟨_, hres⟩ | ⟨_, hres⟩
      · rw [hres]
        exact ⟨fun h => absurd (Except.error.inj h) (hexTooLongMsg_ne_empty _),
          fun hall => absurd ((rustTrim_nil_iff input).mpr hall) h0⟩
      · rw [hres]
        exact ⟨fun h => Except.noConfusion h,
          fun hall => absurd ((rustTrim_nil_iff input).mpr hall) h0⟩

/-! ### C10: the hex byte-conversion failure branch is unreachable -/

/-- C10: `parse_hex_input` never returns the byte-conversion failure
message: after the invalid-character, emptiness and odd-length checks the
retained string is an even-length list of hex digits, on which the pair
decoder always succeeds. -/
theorem C10_format_branch_unreachable (input : List Char) :
    parse_hex_input input ≠ .error hexFormatMsg := by
  intro h
  rcases parse_hex_cases input with ⟨_, hres⟩ | ⟨_, _, hres⟩ | ⟨_, _, _, hres⟩ |
    ⟨_, _, _, _, hres⟩ | ⟨bs, _, _, _, _, _, _, hsub⟩
  · rw [hres] at h
    exact emptyInputMsg_ne_format (Except.error.inj h)
  · rw [hres] at h
    exact invalidCharsHexMsg_ne_format _ (Except.error.inj h)
  · rw [hres] at h
    exact hexNoValidMsg_ne_format (Except.error.inj h)
  · rw [hres] at h
    exact oddLengthMsg_ne_format _ (Except.error.inj h)
  · rcases hsub with ⟨_, hres⟩ | ⟨_, hres⟩
    · rw [hres] at h
      exact hexTooLongMsg_ne_format _ (Except.error.inj h)
    · rw [hres] at h
      exact Except.noConfusion h

/-! ### C7: length validation -/

/-- C7: On inputs made only of valid characters with at least one
significant character retained: `parse_hex_input` fails with OddLength
exactly when the retained hex-digit count is odd; it fails with TooLong
(reporting the decoded byte count) exactly when the count is even and the
decoded byte count `count / 2` exceeds 12; and `parse_binary_input` fails
with TooLong (reporting the actual bit count against the 96-bit maximum)
exactly when more than 96 significant bits remain.  Each failure is an
`error`, so no BitSequence is returned. -/
theorem C7_length_validation (hexIn binIn : List Char)
    (hvH : ∀ c ∈ hexCleanedOf hexIn, isAsciiHexdigit c = true ∨ rustIsWhitespace c = true)
    (hsH : hexDigitsOf hexIn ≠ [])
    (hvB : ∀ c ∈ binIn, rustIsWhitespace c = true ∨ c = '0' ∨ c = '1')
    (hsB : binDigitsOf binIn ≠ []) :
    (parse_hex_input hexIn = .error (oddLengthMsg (hexDigitsOf hexIn).length) ↔
      (hexDigitsOf hexIn).length % 2 = 1) ∧
    (parse_hex_input hexIn = .error (hexTooLongMsg ((hexDigitsOf hexIn).length / 2)) ↔
      ((hexDigitsOf hexIn).length % 2 = 0 ∧ 12 < (hexDigitsOf hexIn).length / 2)) ∧
    (parse_binary_input binIn = .error (binTooLongMsg (binDigitsOf binIn).length) ↔
      96 < (binDigitsOf binIn).length) := by
  have hInvH : hexInvalidOf hexIn = [] := by
    refine List.filter_eq_nil_iff.mpr (fun c hc => ?_)
    rcases hvH c hc with h | h <;> simp [h]
  have hInvB : binInvalidOf binIn = [] := by
    refine List.filter_eq_nil_iff.mpr (fun c hc => ?_)
    rcases hvB c hc with h | h | h <;> simp [h]
  refine ⟨?_, ?_, ?_⟩ <;>
    [skip; skip;
      (rcases parse_binary_cases binIn with ⟨h0, _⟩ | ⟨_, hinv, _⟩ | ⟨_, _, hd, _⟩ |
        ⟨_, _, _, hl, hres⟩ | ⟨_, _, _, hl, hres⟩)]
  case _ =>
    rcases parse_hex_cases hexIn with ⟨h0, _⟩ | ⟨_, hinv, _⟩ | ⟨_, _, hd, _⟩ |
      ⟨_, _, _, hodd, hres⟩ | ⟨bs, _, _, _, hev, _, hlen, hsub⟩
    · exact absurd h0 (trim_ne_of_hexDigits_ne _ hsH)
    · exact absurd hInvH hinv
    · exact absurd hd hsH
    · exact ⟨fun _ => hodd, fun _ => hres⟩
    · rcases hsub with ⟨_, hres⟩ | ⟨_, hres⟩
      · rw [hres]
        exact ⟨fun h => absurd (Except.error.inj h).symm (oddLengthMsg_ne_hexTooLongMsg _ _),
          fun h => by omega⟩
      · rw [hres]
        exact ⟨fun h => Except.noConfusion h, fun h => by omega⟩
  case _ =>
    rcases parse_hex_cases hexIn with ⟨h0, _⟩ | ⟨_, hinv, _⟩ | ⟨_, _, hd, _⟩ |
      ⟨_, _, _, hodd, hres⟩ | ⟨bs, _, _, _, hev, _, hlen, hsub⟩
    · exact absurd h0 (trim_ne_of_hexDigits_ne _ hsH)
    · exact absurd hInvH hinv
    · exact absurd hd hsH
    · rw [hres]
      exact ⟨fun h => absurd (Except.error.inj h) (oddLengthMsg_ne_hexTooLongMsg _ _),
        fun h => by omega⟩
    · rcases hsub with ⟨h12, hres⟩ | ⟨h12, hres⟩
      · rw [hres, ← hlen]
        exact ⟨fun _ => ⟨hev, by omega⟩, fun _ => rfl⟩
      · rw [hres]
        exact ⟨fun h => Except.noConfusion h, fun h => by omega⟩
  · exact absurd h0 (trim_ne_of_binDigits_ne _ hsB)
  · exact absurd hInvB hinv
  · exact absurd hd hsB
  · rw [hres]
    exact ⟨fun _ => hl, fun _ => rfl⟩
  · rw [hres]
    exact ⟨fun h => Except.noConfusion h, fun h => by omega⟩

/-- Witness for C7: hex input `"ABC"` (3 digits, odd), binary input `"0"`. -/
theorem C7_length_validation_witness :
    (∀ c ∈ hexCleanedOf ['A', 'B', 'C'],
      isAsciiHexdigit c = true ∨ rustIsWhitespace c = true) ∧
    hexDigitsOf ['A', 'B', 'C'] ≠ [] ∧
    (∀ c ∈ (['0'] : List Char), rustIsWhitespace c = true ∨ c = '0' ∨ c = '1') ∧
    binDigitsOf ['0'] ≠ [] ∧
    ((parse_hex_input ['A', 'B', 'C'] =
        .error (oddLengthMsg (hexDigitsOf ['A', 'B', 'C']).length) ↔
      (hexDigitsOf ['A', 'B', 'C']).length % 2 = 1) ∧
    (parse_hex_input ['A', 'B', 'C'] =
        .error (hexTooLongMsg ((hexDigitsOf ['A', 'B', 'C']).length / 2)) ↔
      ((hexDigitsOf ['A', 'B', 'C']).length % 2 = 0 ∧
        12 < (hexDigitsOf ['A', 'B', 'C']).length / 2)) ∧
    (parse_binary_input ['0'] = .error (binTooLongMsg (binDigitsOf ['0']).length) ↔
      96 < (binDigitsOf ['0']).length)) :=
  ⟨by decide, by decide, by decide, by decide,
    C7_length_validation ['A', 'B', 'C'] ['0'] (by decide) (by decide) (by decide) (by decide)⟩

/-! ### C8: invalid characters are reported, at most the first five -/

